import Mathlib

/-!
Verification of the weekly-plan lifecycle and validation engine of the
sanivita-crm repository.

The plan object of the client (`WeeklyPlan['plan']` in `types.ts`) maps weekday
indices to either an assignment record, an explicit `null`, or nothing (a
missing key).  It is embedded here as an association list
`List (Nat × Option DayPlanDetails)`: an absent key models a missing key and a
`none` value models the explicit `null`.  The mutation handlers of
`components/PlanEditor.tsx`, the plan persistence functions of
`services/api.ts`, the review handlers of `components/ManagerDashboard.tsx`,
the planning-window date arithmetic of the representative dashboard
(`components/DataImport.tsx`), and its monthly visit-frequency computation are
translated function by function.  Dates are embedded as integer day numbers
(days since the epoch, so that the JavaScript `Date.getDay` becomes
`(n + 4) % 7`) and timestamps in the visit-frequency computation as integers
with the order of the JavaScript `Date` comparisons.
-/

/-- `types.ts` enum `UserRole`. -/
inductive UserRole
  | Manager
  | Supervisor
  | Rep
deriving DecidableEq, Repr

/-- `types.ts` interface `User` (the password field is never consulted by the
code embedded here and is omitted). -/
structure User where
  id : String
  name : String
  username : String
  role : UserRole
deriving DecidableEq, Repr

/-- `types.ts` interface `Doctor`. -/
structure Doctor where
  id : Int
  name : String
  regionId : Int
  repId : String
  specialization : String
deriving DecidableEq, Repr

/-- `types.ts` interface `DayPlanDetails`. -/
structure DayPlanDetails where
  regionId : Int
  doctorIds : List Int
deriving DecidableEq, Repr

/-- The `plan` field of `types.ts` interface `WeeklyPlan`: a JavaScript object
indexed by weekday number.  An entry `(i, none)` is the explicit `null`
assignment for day `i`; a day with no entry at all is a missing key. -/
abbrev PlanData := List (Nat × Option DayPlanDetails)

/-- The `status` field of `types.ts` interface `WeeklyPlan`. -/
inductive PlanStatus
  | draft
  | pending
  | approved
  | rejected
deriving DecidableEq, Repr

/-- `types.ts` interface `WeeklyPlan`. -/
structure WeeklyPlan where
  plan : PlanData
  status : PlanStatus
deriving DecidableEq, Repr

/-- The editor's `WORK_WEEK_DAYS` indices in source order
(`PlanEditor.tsx`): Sat, Sun, Mon, Tue, Wed, Thu, Fri. -/
def WORK_WEEK_DAYS : List Nat := [6, 0, 1, 2, 3, 4, 5]

/-- Reading `planData[i]` on the JavaScript object: `none` is a missing key,
`some none` the explicit `null`, `some (some d)` an assignment record. -/
def lookupDay (p : PlanData) (i : Nat) : Option (Option DayPlanDetails) :=
  (p.find? (fun e => e.1 == i)).map (fun e => e.2)

/-- Writing `newPlan[i] = v` on the JavaScript object: replace the entry if
the key exists, append it otherwise. -/
def setDay (p : PlanData) (i : Nat) (v : Option DayPlanDetails) : PlanData :=
  if p.any (fun e => e.1 == i) then
    p.map (fun e => if e.1 == i then (i, v) else e)
  else
    p ++ [(i, v)]

/-- `PlanEditor.tsx` `assignedDoctorIds`: every doctor id occurring in any
day's `doctorIds` across the whole plan (the source collects them into a
`Set`; the embedding keeps the list, and membership is what is consulted). -/
def assignedDoctorIds (p : PlanData) : List Int :=
  p.foldr
    (fun e acc =>
      match e.2 with
      | some d => d.doctorIds ++ acc
      | none => acc)
    []

/-- `PlanEditor.tsx` `handleRegionChange`.  The `region` argument is the
parsed selector value: `none` embeds both the literal string selection
`none` and a `NaN` parse. -/
def handleRegionChange (p : PlanData) (dayIndex : Nat) (region : Option Int) : PlanData :=
  match region with
  | none => setDay p dayIndex none
  | some regionId =>
      let doctorIds :=
        match lookupDay p dayIndex with
        | some (some d) => if d.regionId == regionId then d.doctorIds else []
        | _ => []
      setDay p dayIndex (some { regionId := regionId, doctorIds := doctorIds })

/-- `PlanEditor.tsx` `handleAddDoctor`.  The `doctorId` argument is the parsed
selector value (`none` embeds a `NaN` parse). -/
def handleAddDoctor (allDoctors : List Doctor) (p : PlanData) (dayIndex : Nat)
    (doctorId : Option Int) : PlanData :=
  match doctorId with
  | none => p
  | some did =>
      if (assignedDoctorIds p).contains did then p
      else
        match lookupDay p dayIndex with
        | some (some d) =>
            if d.doctorIds.contains did then p
            else setDay p dayIndex (some { regionId := d.regionId, doctorIds := d.doctorIds ++ [did] })
        | _ =>
            match allDoctors.find? (fun doc => doc.id == did) with
            | some doc => setDay p dayIndex (some { regionId := doc.regionId, doctorIds := [did] })
            | none => p

/-- `PlanEditor.tsx` `handleRemoveDoctor`. -/
def handleRemoveDoctor (p : PlanData) (dayIndex : Nat) (doctorId : Int) : PlanData :=
  match lookupDay p dayIndex with
  | some (some d) =>
      setDay p dayIndex
        (some { regionId := d.regionId, doctorIds := d.doctorIds.filter (fun x => x != doctorId) })
  | _ => p

/-- The per-day value stored by the clean-up loop in `PlanEditor.tsx`
`handleSave`: the day's record when the entry is truthy, `null` otherwise. -/
def cleanedDay (p : PlanData) (i : Nat) : Option DayPlanDetails :=
  match lookupDay p i with
  | some (some d) => some d
  | _ => none

/-- The `cleanedPlan` built by `PlanEditor.tsx` `handleSave` before calling
`api.updateRepPlan`: one explicit entry per `WORK_WEEK_DAYS` index. -/
def cleanedPlanOf (p : PlanData) : PlanData :=
  WORK_WEEK_DAYS.foldl (fun acc i => setDay acc i (cleanedDay p i)) []

/-- `services/api.ts` `getRepPlan`: the row for the representative, or the
default `{plan: {}, status: 'draft'}` when none exists. -/
def getRepPlan (store : List (String × WeeklyPlan)) (repId : String) : WeeklyPlan :=
  match store.find? (fun e => e.1 == repId) with
  | some e => e.2
  | none => { plan := [], status := PlanStatus.draft }

/-- `services/api.ts` `updateRepPlan`: upsert keyed on `rep_id`, storing the
snapshot with `status` forced to `'pending'`; returns the new store and the
stored record. -/
def updateRepPlan (store : List (String × WeeklyPlan)) (repId : String) (planData : PlanData) :
    List (String × WeeklyPlan) × WeeklyPlan :=
  let record : WeeklyPlan := { plan := planData, status := PlanStatus.pending }
  let newStore :=
    if store.any (fun e => e.1 == repId) then
      store.map (fun e => if e.1 == repId then (repId, record) else e)
    else
      store ++ [(repId, record)]
  (newStore, record)

/-- The decision argument of `api.reviewRepPlan` and of
`ManagerDashboard.tsx` `handleReviewPlan`, typed `'approved' | 'rejected'`
in the source. -/
inductive ReviewDecision
  | approved
  | rejected
deriving DecidableEq, Repr

/-- The `PlanStatus` a `ReviewDecision` stores. -/
def ReviewDecision.toStatus : ReviewDecision → PlanStatus
  | .approved => PlanStatus.approved
  | .rejected => PlanStatus.rejected

/-- The remote persistence calls the review handlers can issue. -/
inductive PersistCall
  | reviewRepPlan (repId : String) (status : PlanStatus)
  | revokePlanApproval (repId : String)
deriving DecidableEq, Repr

/-- The observable outcome of a review handler: the `allPlans` state after the
optimistic update, the persistence calls issued, and whether the handler
surfaced the permission-denied message instead. -/
structure ReviewOutcome where
  allPlans : List (String × WeeklyPlan)
  persistCalls : List PersistCall
  permissionDenied : Bool
deriving DecidableEq, Repr

/-- The optimistic `setAllPlans` update of `ManagerDashboard.tsx`:
`{...prevPlans, [repId]: {...prevPlans[repId], status}}`.  When no record for
`repId` exists the spread of `undefined` leaves only the status; the plan
mapping is then empty. -/
def setStatusIn (plans : List (String × WeeklyPlan)) (repId : String) (st : PlanStatus) :
    List (String × WeeklyPlan) :=
  if plans.any (fun e => e.1 == repId) then
    plans.map (fun e => if e.1 == repId then (repId, { plan := e.2.plan, status := st }) else e)
  else
    plans ++ [(repId, { plan := [], status := st })]

/-- `ManagerDashboard.tsx` `handleReviewPlan`: calls `api.reviewRepPlan`
unconditionally and optimistically updates the status; the acting user is not
consulted. -/
def handleReviewPlan (_user : Option User) (plans : List (String × WeeklyPlan)) (repId : String)
    (newStatus : ReviewDecision) : ReviewOutcome :=
  { allPlans := setStatusIn plans repId newStatus.toStatus
    persistCalls := [PersistCall.reviewRepPlan repId newStatus.toStatus]
    permissionDenied := false }

/-- `ManagerDashboard.tsx` `handleRevokeApproval`: rejects with the
permission-denied message before any call unless the acting user is a
manager; otherwise calls `api.revokePlanApproval` and optimistically sets the
status back to draft. -/
def handleRevokeApproval (user : Option User) (plans : List (String × WeeklyPlan))
    (repId : String) : ReviewOutcome :=
  match user with
  | none => { allPlans := plans, persistCalls := [], permissionDenied := true }
  | some u =>
      if u.role != UserRole.Manager then
        { allPlans := plans, persistCalls := [], permissionDenied := true }
      else
        { allPlans := setStatusIn plans repId PlanStatus.draft
          persistCalls := [PersistCall.revokePlanApproval repId]
          permissionDenied := false }

/-- JavaScript `Date.getDay` on a date given as a day number counted from the
epoch (day 0, 1970-01-01, is a Thursday, weekday 4): `(n + 4) % 7`, using the
Euclidean remainder so the result is in `0..6` for every day number. -/
def jsGetDay (n : Int) : Int := (n + 4) % 7

/-- `DataImport.tsx` `isPlanningTime`: Thursday (4) or Friday (5). -/
def isPlanningTime (n : Int) : Bool := jsGetDay n == 4 || jsGetDay n == 5

/-- `DataImport.tsx` `planStartDate`: during the planning window the next
Saturday (with the `=== 0 ? 7` guard), otherwise the most recent Saturday on
or before today. -/
def planStartDate (n : Int) : Int :=
  if isPlanningTime n then
    let daysUntilNextSaturday := (6 - jsGetDay n + 7) % 7
    n + (if daysUntilNextSaturday == 0 then 7 else daysUntilNextSaturday)
  else
    n - ((jsGetDay n + 1) % 7)

/-- The view states of the representative dashboard in `DataImport.tsx`. -/
inductive RepView
  | dashboard
  | search
  | weekly
  | plan
deriving DecidableEq, Repr

/-- The `canEdit` test inside `DataImport.tsx` `handleWeeklyPlanClick`:
`(!plan || plan.status !== 'approved') || isPlanningTime`. -/
def canEditPlan (plan : Option WeeklyPlan) (planningTime : Bool) : Bool :=
  (match plan with
   | none => true
   | some wp => wp.status != PlanStatus.approved) || planningTime

/-- `DataImport.tsx` `handleWeeklyPlanClick`: the editor view when editable,
the read-only weekly view otherwise. -/
def handleWeeklyPlanClick (plan : Option WeeklyPlan) (planningTime : Bool) : RepView :=
  if canEditPlan plan planningTime then RepView.plan else RepView.weekly

/-- The visit kinds of `types.ts` `VisitReport`. -/
inductive VisitType
  | DOCTOR_VISIT
  | PHARMACY_VISIT
deriving DecidableEq, Repr

/-- The fields of `types.ts` `VisitReport` consulted by the visit-frequency
computation; `date` is the timestamp as an integer. -/
structure VisitReport where
  targetName : String
  type : VisitType
  date : Int
deriving DecidableEq, Repr

/-- `visitCounts[key] = (visitCounts[key] || 0) + 1` on the JavaScript record
object. -/
def bumpCount (counts : List (String × Nat)) (key : String) : List (String × Nat) :=
  if counts.any (fun e => e.1 == key) then
    counts.map (fun e => if e.1 == key then (key, e.2 + 1) else e)
  else
    counts ++ [(key, 1)]

/-- The filter of the `visitFrequency` memo in `DataImport.tsx`:
`visitDate >= startOfMonth && visitDate <= today && visit.type === 'DOCTOR_VISIT'`. -/
def inMonthDoctorVisit (startOfMonth today : Int) (v : VisitReport) : Bool :=
  (startOfMonth ≤ v.date && v.date ≤ today) && v.type == VisitType.DOCTOR_VISIT

/-- The `forEach` loop of the `visitFrequency` memo, threading the
`visitCounts` record. -/
def visitCountsAux (startOfMonth today : Int) (acc : List (String × Nat)) :
    List VisitReport → List (String × Nat)
  | [] => acc
  | v :: vs =>
      visitCountsAux startOfMonth today
        (if inMonthDoctorVisit startOfMonth today v then bumpCount acc v.targetName else acc) vs

/-- The `visitCounts` record built by the `visitFrequency` memo. -/
def visitCounts (visits : List VisitReport) (startOfMonth today : Int) : List (String × Nat) :=
  visitCountsAux startOfMonth today [] visits

/-- The result record of the `visitFrequency` memo. -/
structure FreqBuckets where
  freq1 : Nat
  freq2 : Nat
  freq3 : Nat
deriving DecidableEq, Repr

/-- One step of the bucketing loop over `Object.values(visitCounts)`. -/
def bucketStep (f : FreqBuckets) (count : Nat) : FreqBuckets :=
  if count = 1 then { f with freq1 := f.freq1 + 1 }
  else if count = 2 then { f with freq2 := f.freq2 + 1 }
  else if 3 ≤ count then { f with freq3 := f.freq3 + 1 }
  else f

/-- The `visitFrequency` memo of the representative dashboard in
`DataImport.tsx` (the manager dashboard runs the identical computation on its
rep-filtered report list). -/
def visitFrequency (visits : List VisitReport) (startOfMonth today : Int) : FreqBuckets :=
  (visitCounts visits startOfMonth today).foldl (fun f e => bucketStep f e.2)
    { freq1 := 0, freq2 := 0, freq3 := 0 }

/-- The doctor ids a day value contributes. -/
def idsOfVal : Option DayPlanDetails → List Int
  | some d => d.doctorIds
  | none => []

/-- The doctor ids listed under day `i` (empty for a missing key or an
explicit `null`). -/
def idsAt (p : PlanData) (i : Nat) : List Int :=
  match lookupDay p i with
  | some (some d) => d.doctorIds
  | _ => []

/-- The keys present in the plan object. -/
def planKeys (p : PlanData) : List Nat := p.map (fun e => e.1)

/-- First plan invariant (spec section 3): no doctor id appears in more than
one day's `doctorIds` across the whole plan. -/
def crossDayUnique (p : PlanData) : Bool :=
  (planKeys p).all fun i =>
    (planKeys p).all fun j =>
      (i == j) || (idsAt p i).all fun x => !((idsAt p j).contains x)

/-- Second plan invariant (spec section 3) at one day: every doctor id listed
under the day belongs to the region assigned to that day. -/
def regionOkAt (allDoctors : List Doctor) (p : PlanData) (i : Nat) : Bool :=
  match lookupDay p i with
  | some (some d) =>
      d.doctorIds.all fun did =>
        allDoctors.any fun doc => doc.id == did && doc.regionId == d.regionId
  | _ => true

/-- Second plan invariant (spec section 3) over the whole plan. -/
def regionOk (allDoctors : List Doctor) (p : PlanData) : Bool :=
  (planKeys p).all (regionOkAt allDoctors p)

/-- Both plan invariants of spec section 3. -/
def planValid (allDoctors : List Doctor) (p : PlanData) : Bool :=
  crossDayUnique p && regionOk allDoctors p

/-- One plan-editing mutation of `PlanEditor.tsx`. -/
inductive PlanEvent
  | regionChange (dayIndex : Nat) (region : Option Int)
  | addDoctor (dayIndex : Nat) (doctorId : Option Int)
  | removeDoctor (dayIndex : Nat) (doctorId : Int)
deriving DecidableEq, Repr

/-- Dispatch one mutation to its handler. -/
def applyEvent (allDoctors : List Doctor) (p : PlanData) : PlanEvent → PlanData
  | .regionChange i r => handleRegionChange p i r
  | .addDoctor i d => handleAddDoctor allDoctors p i d
  | .removeDoctor i d => handleRemoveDoctor p i d

/-- Apply a sequence of mutations in order. -/
def applyEvents (allDoctors : List Doctor) : PlanData → List PlanEvent → PlanData
  | p, [] => p
  | p, e :: es => applyEvents allDoctors (applyEvent allDoctors p e) es

/-- An add-doctor mutation on a day that already has an assignment is
region-safe when the doctor is already assigned somewhere (so the handler
ignores it) or the doctor's record places it in that day's region — exactly
what the editor's region-filtered selector offers.  Every other mutation is
unconditionally safe. -/
def eventSafe (allDoctors : List Doctor) (p : PlanData) : PlanEvent → Bool
  | .addDoctor dayIndex (some did) =>
      (match lookupDay p dayIndex with
       | some (some d) =>
           (assignedDoctorIds p).contains did ||
             allDoctors.any (fun doc => doc.id == did && doc.regionId == d.regionId)
       | _ => true)
  | _ => true

/-- Region-safety of a whole mutation sequence, each event judged against the
plan state it is applied to. -/
def safeSeq (allDoctors : List Doctor) : PlanData → List PlanEvent → Bool
  | _, [] => true
  | p, e :: es => eventSafe allDoctors p e && safeSeq allDoctors (applyEvent allDoctors p e) es

/-- Modelled from the spec, for comparison with `visitFrequency`: the visits
of the current-month window that are doctor visits. -/
def specFilteredVisits (visits : List VisitReport) (startOfMonth today : Int) :
    List VisitReport :=
  visits.filter (inMonthDoctorVisit startOfMonth today)

/-- Modelled from the spec: how many times a given target display name was
visited inside the window. -/
def specOcc (visits : List VisitReport) (startOfMonth today : Int) (name : String) : Nat :=
  (specFilteredVisits visits startOfMonth today).countP (fun v => v.targetName == name)

/-- Modelled from the spec: the distinct target display names visited inside
the window, as a finite set. -/
def specNames (visits : List VisitReport) (startOfMonth today : Int) : Finset String :=
  ((specFilteredVisits visits startOfMonth today).map VisitReport.targetName).toFinset

/-- Modelled from the spec: the number of distinct target display names
visited exactly `k` times inside the window. -/
def specFreqCount (visits : List VisitReport) (startOfMonth today : Int) (k : Nat) : Nat :=
  ((specNames visits startOfMonth today).filter
    (fun nm => specOcc visits startOfMonth today nm = k)).card

/-- Modelled from the spec: the number of distinct target display names
visited three or more times inside the window. -/
def specFreq3Plus (visits : List VisitReport) (startOfMonth today : Int) : Nat :=
  ((specNames visits startOfMonth today).filter
    (fun nm => 3 ≤ specOcc visits startOfMonth today nm)).card

section AssocLemmas

/-- `find?` over a one-element extension on the right. -/
theorem find?_append_one {α β : Type} (l : List (α × β)) (x : α × β) (q : α × β → Bool) :
    (l ++ [x]).find? q =
      (match l.find? q with
       | some r => some r
       | none => if q x then some x else none) := by
  induction l with
  | nil => cases hq : q x <;> simp [List.find?, hq]
  | cons e l ih =>
      cases he : q e
      · simpa [List.find?_cons_of_neg, he] using ih
      · simp [List.find?_cons_of_pos, he]

variable {α β : Type} [BEq α] [LawfulBEq α]

/-- Looking up the written key after a keyed in-place replacement. -/
theorem find?_mapAssoc_self (l : List (α × β)) (k : α) (r : β → β) :
    (l.map (fun e => if e.1 == k then (k, r e.2) else e)).find? (fun e => e.1 == k)
      = (l.find? (fun e => e.1 == k)).map (fun e => (k, r e.2)) := by
  induction l with
  | nil => rfl
  | cons e l ih =>
      by_cases hb : (e.1 == k) = true
      · simp [hb, List.find?_cons_of_pos]
      · simp [hb, List.find?_cons_of_neg, ih]

/-- Looking up a different key after a keyed in-place replacement. -/
theorem find?_mapAssoc_ne (l : List (α × β)) (k j : α) (r : β → β) (hne : j ≠ k) :
    (l.map (fun e => if e.1 == k then (k, r e.2) else e)).find? (fun e => e.1 == j)
      = l.find? (fun e => e.1 == j) := by
  induction l with
  | nil => rfl
  | cons e l ih =>
      by_cases hb : (e.1 == k) = true
      · have hk : e.1 = k := by simpa using hb
        have h1 : ((k, r e.2).1 == j) = false := by
          simp only [beq_eq_false_iff_ne]
          exact fun h => hne (h ▸ rfl)
        have h2 : (e.1 == j) = false := by
          rw [hk]
          simpa using h1
        simp [hb, h1, h2, List.find?_cons_of_neg, ih]
      · simp only [List.map_cons, if_neg hb]
        by_cases hj : (e.1 == j) = true
        · simp [List.find?_cons_of_pos, hj]
        · simp [List.find?_cons_of_neg, hj, ih]

/-- A key occurs in the association list iff `any` finds it. -/
theorem any_key_eq_true_iff (l : List (α × β)) (k : α) :
    l.any (fun e => e.1 == k) = true ↔ k ∈ l.map Prod.fst := by
  rw [List.any_eq_true]
  constructor
  · rintro ⟨e, he, hbe⟩
    exact List.mem_map.mpr ⟨e, he, (beq_iff_eq.mp hbe)⟩
  · rintro hn
    rcases List.mem_map.mp hn with ⟨e, he, hk⟩
    exact ⟨e, he, beq_iff_eq.mpr hk⟩

end AssocLemmas

/-- Reading the plan object after a keyed write. -/
theorem lookupDay_setDay (p : PlanData) (i : Nat) (v : Option DayPlanDetails) (j : Nat) :
    lookupDay (setDay p i v) j = if j = i then some v else lookupDay p j := by
  by_cases hji : j = i
  · subst hji
    rw [if_pos rfl]
    unfold lookupDay setDay
    by_cases hany : (p.any (fun e => e.1 == j)) = true
    · rw [if_pos hany]
      have h := find?_mapAssoc_self p j (fun _ => v)
      simp only [] at h
      rw [h]
      rcases hf : p.find? (fun e => e.1 == j) with _ | e
      · exfalso
        rw [List.find?_eq_none] at hf
        rcases List.any_eq_true.mp hany with ⟨e, he, hbe⟩
        exact hf e he hbe
      · rw [hf]
        rfl
    · rw [if_neg hany]
      have h := find?_append_one p (j, v) (fun e => e.1 == j)
      have hf : p.find? (fun e => e.1 == j) = none := by
        rw [List.find?_eq_none]
        intro x hx hb
        exact hany (List.any_eq_true.mpr ⟨x, hx, hb⟩)
      rw [h, hf]
      show Option.map (fun e => e.2) (if ((j, v).1 == j) = true then some (j, v) else none)
        = some v
      rw [if_pos (beq_self_eq_true j)]
      rfl
  · rw [if_neg hji]
    unfold lookupDay setDay
    by_cases hany : (p.any (fun e => e.1 == i)) = true
    · rw [if_pos hany]
      have h := find?_mapAssoc_ne p i j (fun _ => v) hji
      simp only [] at h
      rw [h]
    · rw [if_neg hany]
      have h := find?_append_one p (i, v) (fun e => e.1 == j)
      rw [h]
      rcases hf : p.find? (fun e => e.1 == j) with _ | e
      · rw [hf]
        show Option.map (fun e => e.2) (if ((i, v).1 == j) = true then some (i, v) else none)
          = Option.map (fun e => e.2) (none : Option (Nat × Option DayPlanDetails))
        rw [if_neg (by simp [beq_eq_false_iff_ne]; exact Ne.symm hji)]
      · rw [hf]

/-- What `idsAt` reads after a keyed write. -/
theorem idsAt_setDay (p : PlanData) (i : Nat) (v : Option DayPlanDetails) (j : Nat) :
    idsAt (setDay p i v) j = if j = i then idsOfVal v else idsAt p j := by
  unfold idsAt
  rw [lookupDay_setDay]
  by_cases hji : j = i
  · rw [if_pos hji, if_pos hji]
    cases v with
    | none => rfl
    | some d => rfl
  · rw [if_neg hji, if_neg hji]

/-- A present key of the plan object is in `planKeys`. -/
theorem mem_planKeys_of_lookupDay {p : PlanData} {i : Nat} {o : Option DayPlanDetails}
    (h : lookupDay p i = some o) : i ∈ planKeys p := by
  unfold lookupDay at h
  rcases hf : p.find? (fun e => e.1 == i) with _ | e
  · rw [hf] at h
    cases h
  · have he := List.mem_of_find?_eq_some hf
    have hp := List.find?_some hf
    exact List.mem_map.mpr ⟨e, he, beq_iff_eq.mp hp⟩

/-- A key outside `planKeys` reads as a missing key. -/
theorem lookupDay_eq_none_of_not_mem_keys {p : PlanData} {i : Nat} (h : i ∉ planKeys p) :
    lookupDay p i = none := by
  unfold lookupDay
  have hf : p.find? (fun e => e.1 == i) = none := by
    rw [List.find?_eq_none]
    intro x hx hb
    exact h (List.mem_map.mpr ⟨x, hx, beq_iff_eq.mp hb⟩)
  rw [hf]
  rfl

/-- A key outside `planKeys` lists no doctors. -/
theorem idsAt_eq_nil_of_not_mem_keys {p : PlanData} {i : Nat} (h : i ∉ planKeys p) :
    idsAt p i = [] := by
  unfold idsAt
  rw [lookupDay_eq_none_of_not_mem_keys h]

/-- A doctor id found in some plan entry is in `assignedDoctorIds`. -/
theorem mem_assignedDoctorIds_of_entry {x : Int} {d : DayPlanDetails} :
    ∀ {p : PlanData} {e : Nat × Option DayPlanDetails}, e ∈ p → e.2 = some d →
      x ∈ d.doctorIds → x ∈ assignedDoctorIds p := by
  intro p
  induction p with
  | nil =>
      intro e he
      cases he
  | cons a p ih =>
      intro e he hd hx
      simp only [assignedDoctorIds, List.foldr_cons]
      rcases List.mem_cons.mp he with rfl | hmem
      · rw [hd]
        exact List.mem_append_left _ hx
      · have hmem2 : x ∈ assignedDoctorIds p := ih hmem hd hx
        unfold assignedDoctorIds at hmem2
        cases ha : a.2 with
        | none => simpa [ha] using hmem2
        | some d2 =>
            simp only [ha]
            exact List.mem_append_right _ hmem2

/-- A doctor id listed under some day is in `assignedDoctorIds`. -/
theorem mem_assigned_of_mem_idsAt {p : PlanData} {i : Nat} {x : Int} (h : x ∈ idsAt p i) :
    x ∈ assignedDoctorIds p := by
  unfold idsAt at h
  rcases hl : lookupDay p i with _ | o
  · rw [hl] at h
    cases h
  · rw [hl] at h
    cases o with
    | none => cases h
    | some d =>
        unfold lookupDay at hl
        rcases Option.map_eq_some'.mp hl with ⟨e, hf, he2⟩
        exact mem_assignedDoctorIds_of_entry (List.mem_of_find?_eq_some hf) he2 h

/-- The first plan invariant, stated as a proposition over `idsAt`. -/
def CrossOK (p : PlanData) : Prop :=
  ∀ i j, i ≠ j → ∀ x, x ∈ idsAt p i → x ∉ idsAt p j

/-- The second plan invariant, stated as a proposition over `lookupDay`. -/
def RegionOK (allDoctors : List Doctor) (p : PlanData) : Prop :=
  ∀ i d, lookupDay p i = some (some d) → ∀ did ∈ d.doctorIds,
    ∃ doc ∈ allDoctors, doc.id = did ∧ doc.regionId = d.regionId

/-- The executable first invariant decides `CrossOK`. -/
theorem crossDayUnique_iff (p : PlanData) : crossDayUnique p = true ↔ CrossOK p := by
  unfold crossDayUnique CrossOK
  rw [List.all_eq_true]
  constructor
  · intro h i j hij x hxi hxj
    have hik : i ∈ planKeys p := by
      by_contra hik
      rw [idsAt_eq_nil_of_not_mem_keys hik] at hxi
      cases hxi
    have hjk : j ∈ planKeys p := by
      by_contra hjk
      rw [idsAt_eq_nil_of_not_mem_keys hjk] at hxj
      cases hxj
    have h1 := h i hik
    rw [List.all_eq_true] at h1
    have h2 := h1 j hjk
    rw [Bool.or_eq_true] at h2
    rcases h2 with h2 | h2
    · exact hij (beq_iff_eq.mp h2)
    · rw [List.all_eq_true] at h2
      have h3 := h2 x hxi
      simp only [Bool.not_eq_true'] at h3
      rw [← Bool.not_eq_true] at h3
      exact h3 (List.elem_eq_true_of_mem hxj)
  · intro h i _ 
    rw [List.all_eq_true]
    intro j _ 
    by_cases hij : i = j
    · rw [Bool.or_eq_true]
      exact Or.inl (beq_iff_eq.mpr hij)
    · rw [Bool.or_eq_true]
      right
      rw [List.all_eq_true]
      intro x hx
      simp only [Bool.not_eq_true']
      rw [← Bool.not_eq_true]
      intro hc
      have : x ∈ idsAt p j := by simpa using hc
      exact h i j hij x hx this

/-- The executable second invariant decides `RegionOK`. -/
theorem regionOk_iff (allDoctors : List Doctor) (p : PlanData) :
    regionOk allDoctors p = true ↔ RegionOK allDoctors p := by
  unfold regionOk RegionOK
  rw [List.all_eq_true]
  constructor
  · intro h i d hld did hdid
    have hik : i ∈ planKeys p := mem_planKeys_of_lookupDay hld
    have h1 := h i hik
    unfold regionOkAt at h1
    rw [hld] at h1
    rw [List.all_eq_true] at h1
    have h2 := h1 did hdid
    rw [List.any_eq_true] at h2
    rcases h2 with ⟨doc, hdoc, hb⟩
    rw [Bool.and_eq_true] at hb
    exact ⟨doc, hdoc, beq_iff_eq.mp hb.1, beq_iff_eq.mp hb.2⟩
  · intro h i _ 
    unfold regionOkAt
    rcases hl : lookupDay p i with _ | o
    · rfl
    · cases o with
      | none => rfl
      | some d =>
          rw [List.all_eq_true]
          intro did hdid
          rcases h i d hl did hdid with ⟨doc, hdoc, h1, h2⟩
          rw [List.any_eq_true]
          exact ⟨doc, hdoc, by rw [Bool.and_eq_true]
                               exact ⟨beq_iff_eq.mpr h1, beq_iff_eq.mpr h2⟩⟩

/-- `idsAt` under a known assignment record. -/
theorem idsAt_of_lookup {p : PlanData} {i : Nat} {d : DayPlanDetails}
    (hl : lookupDay p i = some (some d)) : idsAt p i = d.doctorIds := by
  unfold idsAt
  rw [hl]

/-- A keyed write preserves the first invariant when every written doctor id
either already sat on the written day or sits on no day at all. -/
theorem CrossOK_setDay (p : PlanData) (k : Nat) (v : Option DayPlanDetails)
    (h : CrossOK p)
    (hsub : ∀ x ∈ idsOfVal v, x ∈ idsAt p k ∨ ∀ j, x ∉ idsAt p j) :
    CrossOK (setDay p k v) := by
  intro i j hij x hxi hxj
  rw [idsAt_setDay] at hxi hxj
  by_cases hik : i = k
  · subst hik
    rw [if_pos rfl] at hxi
    rw [if_neg (fun hh : j = i => hij (hh ▸ rfl))] at hxj
    rcases hsub x hxi with hx | hx
    · exact h i j hij x hx hxj
    · exact hx j hxj
  · rw [if_neg hik] at hxi
    by_cases hjk : j = k
    · subst hjk
      rw [if_pos rfl] at hxj
      rcases hsub x hxj with hx | hx
      · exact h i j hij x hxi hx
      · exact hx i hxi
    · rw [if_neg hjk] at hxj
      exact h i j hij x hxi hxj

/-- A keyed write preserves the second invariant when the written value
itself satisfies it. -/
theorem RegionOK_setDay (allDoctors : List Doctor) (p : PlanData) (k : Nat)
    (v : Option DayPlanDetails) (h : RegionOK allDoctors p)
    (hv : ∀ d, v = some d → ∀ did ∈ d.doctorIds,
      ∃ doc ∈ allDoctors, doc.id = did ∧ doc.regionId = d.regionId) :
    RegionOK allDoctors (setDay p k v) := by
  intro i d hld did hdid
  rw [lookupDay_setDay] at hld
  by_cases hik : i = k
  · rw [if_pos hik] at hld
    exact hv d (Option.some.inj hld) did hdid
  · rw [if_neg hik] at hld
    exact h i d hld did hdid

/-- The `const doctorIds = ...` local of `handleRegionChange` for a concrete
region selection. -/
def regionChangeIds (p : PlanData) (i : Nat) (r : Int) : List Int :=
  match lookupDay p i with
  | some (some d) => if d.regionId == r then d.doctorIds else []
  | _ => []

/-- `handleRegionChange` with a concrete region, written as a single keyed
write. -/
theorem handleRegionChange_some_eq (p : PlanData) (i : Nat) (r : Int) :
    handleRegionChange p i (some r)
      = setDay p i (some { regionId := r, doctorIds := regionChangeIds p i r }) := rfl

/-- `handleAddDoctor` with a parsed doctor id, with the outer match
reduced. -/
theorem handleAddDoctor_some_eq (allDoctors : List Doctor) (p : PlanData) (i : Nat)
    (did : Int) :
    handleAddDoctor allDoctors p i (some did) =
      (if (assignedDoctorIds p).contains did = true then p
       else
         match lookupDay p i with
         | some (some d) =>
             if d.doctorIds.contains did = true then p
             else setDay p i (some { regionId := d.regionId, doctorIds := d.doctorIds ++ [did] })
         | _ =>
             match allDoctors.find? (fun doc => doc.id == did) with
             | some doc => setDay p i (some { regionId := doc.regionId, doctorIds := [did] })
             | none => p) := rfl

/-- `handleAddDoctor` ignores a doctor already assigned anywhere. -/
theorem handleAddDoctor_of_assigned (allDoctors : List Doctor) (p : PlanData) (i : Nat)
    (did : Int) (h : (assignedDoctorIds p).contains did = true) :
    handleAddDoctor allDoctors p i (some did) = p := by
  rw [handleAddDoctor_some_eq, if_pos h]

/-- `handleAddDoctor` on a day with an assignment appends the doctor. -/
theorem handleAddDoctor_existing (allDoctors : List Doctor) (p : PlanData) (i : Nat)
    (did : Int) (d : DayPlanDetails) (h : (assignedDoctorIds p).contains did = false)
    (hl : lookupDay p i = some (some d)) (hmem : d.doctorIds.contains did = false) :
    handleAddDoctor allDoctors p i (some did)
      = setDay p i (some { regionId := d.regionId, doctorIds := d.doctorIds ++ [did] }) := by
  rw [handleAddDoctor_some_eq, if_neg (by rw [h]; simp), hl]
  show (if d.doctorIds.contains did = true then p
        else setDay p i (some { regionId := d.regionId, doctorIds := d.doctorIds ++ [did] })) = _
  rw [if_neg (by rw [hmem]; simp)]

/-- `handleAddDoctor` on a day without an assignment seeds it with the
doctor's own region when the doctor record is found. -/
theorem handleAddDoctor_seed (allDoctors : List Doctor) (p : PlanData) (i : Nat)
    (did : Int) (doc : Doctor) (h : (assignedDoctorIds p).contains did = false)
    (hl : lookupDay p i = none ∨ lookupDay p i = some none)
    (hfd : allDoctors.find? (fun dc => dc.id == did) = some doc) :
    handleAddDoctor allDoctors p i (some did)
      = setDay p i (some { regionId := doc.regionId, doctorIds := [did] }) := by
  rw [handleAddDoctor_some_eq, if_neg (by rw [h]; simp)]
  rcases hl with hl | hl <;>
    · rw [hl]
      show (match allDoctors.find? (fun dc => dc.id == did) with
            | some dc => setDay p i (some { regionId := dc.regionId, doctorIds := [did] })
            | none => p) = _
      rw [hfd]

/-- `handleAddDoctor` on a day without an assignment is a no-op when the
doctor record is absent. -/
theorem handleAddDoctor_seed_none (allDoctors : List Doctor) (p : PlanData) (i : Nat)
    (did : Int) (h : (assignedDoctorIds p).contains did = false)
    (hl : lookupDay p i = none ∨ lookupDay p i = some none)
    (hfd : allDoctors.find? (fun dc => dc.id == did) = none) :
    handleAddDoctor allDoctors p i (some did) = p := by
  rw [handleAddDoctor_some_eq, if_neg (by rw [h]; simp)]
  rcases hl with hl | hl <;>
    · rw [hl]
      show (match allDoctors.find? (fun dc => dc.id == did) with
            | some dc => setDay p i (some { regionId := dc.regionId, doctorIds := [did] })
            | none => p) = _
      rw [hfd]

/-- `handleAddDoctor` on a day already containing the doctor is a no-op. -/
theorem handleAddDoctor_already_on_day (allDoctors : List Doctor) (p : PlanData) (i : Nat)
    (did : Int) (d : DayPlanDetails) (h : (assignedDoctorIds p).contains did = false)
    (hl : lookupDay p i = some (some d)) (hmem : d.doctorIds.contains did = true) :
    handleAddDoctor allDoctors p i (some did) = p := by
  rw [handleAddDoctor_some_eq, if_neg (by rw [h]; simp), hl]
  show (if d.doctorIds.contains did = true then p
        else setDay p i (some { regionId := d.regionId, doctorIds := d.doctorIds ++ [did] })) = _
  rw [if_pos hmem]

/-- `regionChangeIds` when the day already has the selected region. -/
theorem regionChangeIds_same {p : PlanData} {i : Nat} {d : DayPlanDetails} {r : Int}
    (hl : lookupDay p i = some (some d)) (hb : (d.regionId == r) = true) :
    regionChangeIds p i r = d.doctorIds := by
  unfold regionChangeIds
  rw [hl]
  show (if (d.regionId == r) = true then d.doctorIds else []) = d.doctorIds
  rw [if_pos hb]

/-- `regionChangeIds` when the day has a different region. -/
theorem regionChangeIds_diff {p : PlanData} {i : Nat} {d : DayPlanDetails} {r : Int}
    (hl : lookupDay p i = some (some d)) (hb : (d.regionId == r) = false) :
    regionChangeIds p i r = [] := by
  unfold regionChangeIds
  rw [hl]
  show (if (d.regionId == r) = true then d.doctorIds else []) = []
  rw [if_neg (by rw [hb]; simp)]

/-- `regionChangeIds` when the day has no assignment. -/
theorem regionChangeIds_missing {p : PlanData} {i : Nat} {r : Int}
    (hl : lookupDay p i = none ∨ lookupDay p i = some none) :
    regionChangeIds p i r = [] := by
  unfold regionChangeIds
  rcases hl with hl | hl <;> rw [hl]

/-- Unpacking `eventSafe` for an add on a day with an assignment. -/
theorem eventSafe_add_existing {allDoctors : List Doctor} {p : PlanData} {dayIndex : Nat}
    {did : Int} {d : DayPlanDetails} (hl : lookupDay p dayIndex = some (some d))
    (hs : eventSafe allDoctors p (PlanEvent.addDoctor dayIndex (some did)) = true) :
    ((assignedDoctorIds p).contains did
      || allDoctors.any (fun doc => doc.id == did && doc.regionId == d.regionId)) = true := by
  have hs2 : (match lookupDay p dayIndex with
              | some (some d) =>
                  (assignedDoctorIds p).contains did
                    || allDoctors.any (fun doc => doc.id == did && doc.regionId == d.regionId)
              | _ => true) = true := hs
  rw [hl] at hs2
  exact hs2

/-- Every region-safe mutation preserves both plan invariants. -/
theorem applyEvent_preserves (allDoctors : List Doctor) (p : PlanData) (e : PlanEvent)
    (hc : CrossOK p) (hr : RegionOK allDoctors p)
    (hs : eventSafe allDoctors p e = true) :
    CrossOK (applyEvent allDoctors p e) ∧ RegionOK allDoctors (applyEvent allDoctors p e) := by
  cases e with
  | regionChange dayIndex region =>
      cases region with
      | none =>
          simp only [applyEvent, handleRegionChange]
          constructor
          · apply CrossOK_setDay p dayIndex none hc
            intro x hx
            cases hx
          · apply RegionOK_setDay allDoctors p dayIndex none hr
            intro d hd
            cases hd
      | some r =>
          simp only [applyEvent]
          rw [handleRegionChange_some_eq]
          constructor
          · apply CrossOK_setDay _ _ _ hc
            intro x hx
            have hx2 : x ∈ regionChangeIds p dayIndex r := hx
            rcases hl : lookupDay p dayIndex with _ | o
            · rw [regionChangeIds_missing (Or.inl hl)] at hx2
              cases hx2
            · cases o with
              | none =>
                  rw [regionChangeIds_missing (Or.inr hl)] at hx2
                  cases hx2
              | some d =>
                  by_cases hb : (d.regionId == r) = true
                  · rw [regionChangeIds_same hl hb] at hx2
                    left
                    rw [idsAt_of_lookup hl]
                    exact hx2
                  · rw [regionChangeIds_diff hl (by
                      cases hbb : (d.regionId == r)
                      · rfl
                      · exact absurd hbb hb)] at hx2
                    cases hx2
          · apply RegionOK_setDay _ _ _ _ hr
            intro d0 hd0 did hdid
            obtain rfl := Option.some.inj hd0
            have hdid2 : did ∈ regionChangeIds p dayIndex r := hdid
            rcases hl : lookupDay p dayIndex with _ | o
            · rw [regionChangeIds_missing (Or.inl hl)] at hdid2
              cases hdid2
            · cases o with
              | none =>
                  rw [regionChangeIds_missing (Or.inr hl)] at hdid2
                  cases hdid2
              | some d =>
                  by_cases hb : (d.regionId == r) = true
                  · rw [regionChangeIds_same hl hb] at hdid2
                    rcases hr dayIndex d hl did hdid2 with ⟨doc, hdoc, hid, hreg⟩
                    refine ⟨doc, hdoc, hid, ?_⟩
                    rw [hreg]
                    exact beq_iff_eq.mp hb
                  · rw [regionChangeIds_diff hl (by
                      cases hbb : (d.regionId == r)
                      · rfl
                      · exact absurd hbb hb)] at hdid2
                    cases hdid2
  | addDoctor dayIndex doctorId =>
      cases doctorId with
      | none => exact ⟨hc, hr⟩
      | some did =>
          simp only [applyEvent]
          by_cases hct : ((assignedDoctorIds p).contains did) = true
          · rw [handleAddDoctor_of_assigned allDoctors p dayIndex did hct]
            exact ⟨hc, hr⟩
          · have hctf : (assignedDoctorIds p).contains did = false := by
              cases hcc : (assignedDoctorIds p).contains did
              · rfl
              · exact absurd hcc hct
            have hnotmem : did ∉ assignedDoctorIds p :=
              fun hm => hct (List.elem_eq_true_of_mem hm)
            have hfresh : ∀ j, did ∉ idsAt p j :=
              fun j hj => hnotmem (mem_assigned_of_mem_idsAt hj)
            rcases hl : lookupDay p dayIndex with _ | o
            · rcases hfd : allDoctors.find? (fun dc => dc.id == did) with _ | doc
              · rw [handleAddDoctor_seed_none allDoctors p dayIndex did hctf (Or.inl hl) hfd]
                exact ⟨hc, hr⟩
              · rw [handleAddDoctor_seed allDoctors p dayIndex did doc hctf (Or.inl hl) hfd]
                constructor
                · apply CrossOK_setDay _ _ _ hc
                  intro x hx
                  right
                  have hxd : x = did := by simpa [idsOfVal] using hx
                  subst hxd
                  exact hfresh
                · apply RegionOK_setDay _ _ _ _ hr
                  intro d0 hd0 did2 hdid2
                  obtain rfl := Option.some.inj hd0
                  have hdd : did2 = did := by simpa using hdid2
                  subst hdd
                  refine ⟨doc, List.mem_of_find?_eq_some hfd, ?_, rfl⟩
                  have hbd := List.find?_some hfd
                  exact beq_iff_eq.mp hbd
            · cases o with
              | none =>
                  rcases hfd : allDoctors.find? (fun dc => dc.id == did) with _ | doc
                  · rw [handleAddDoctor_seed_none allDoctors p dayIndex did hctf (Or.inr hl) hfd]
                    exact ⟨hc, hr⟩
                  · rw [handleAddDoctor_seed allDoctors p dayIndex did doc hctf (Or.inr hl) hfd]
                    constructor
                    · apply CrossOK_setDay _ _ _ hc
                      intro x hx
                      right
                      have hxd : x = did := by simpa [idsOfVal] using hx
                      subst hxd
                      exact hfresh
                    · apply RegionOK_setDay _ _ _ _ hr
                      intro d0 hd0 did2 hdid2
                      obtain rfl := Option.some.inj hd0
                      have hdd : did2 = did := by simpa using hdid2
                      subst hdd
                      refine ⟨doc, List.mem_of_find?_eq_some hfd, ?_, rfl⟩
                      have hbd := List.find?_some hfd
                      exact beq_iff_eq.mp hbd
              | some d =>
                  by_cases hm : (d.doctorIds.contains did) = true
                  · rw [handleAddDoctor_already_on_day allDoctors p dayIndex did d hctf hl hm]
                    exact ⟨hc, hr⟩
                  · have hmf : d.doctorIds.contains did = false := by
                      cases hmm : d.doctorIds.contains did
                      · rfl
                      · exact absurd hmm hm
                    rw [handleAddDoctor_existing allDoctors p dayIndex did d hctf hl hmf]
                    constructor
                    · apply CrossOK_setDay _ _ _ hc
                      intro x hx
                      rcases List.mem_append.mp hx with hxo | hxn
                      · left
                        rw [idsAt_of_lookup hl]
                        exact hxo
                      · right
                        have hxd : x = did := by simpa using hxn
                        subst hxd
                        exact hfresh
                    · apply RegionOK_setDay _ _ _ _ hr
                      intro d0 hd0 did2 hdid2
                      obtain rfl := Option.some.inj hd0
                      rcases List.mem_append.mp hdid2 with hxo | hxn
                      · exact hr dayIndex d hl did2 hxo
                      · have hdd : did2 = did := by simpa using hxn
                        subst hdd
                        have hor := eventSafe_add_existing hl hs
                        rw [Bool.or_eq_true] at hor
                        rcases hor with hcase | hcase
                        · rw [hctf] at hcase
                          cases hcase
                        · rcases List.any_eq_true.mp hcase with ⟨doc, hdoc, hb⟩
                          rw [Bool.and_eq_true] at hb
                          exact ⟨doc, hdoc, beq_iff_eq.mp hb.1, beq_iff_eq.mp hb.2⟩
  | removeDoctor dayIndex did =>
      simp only [applyEvent]
      rcases hl : lookupDay p dayIndex with _ | o
      · have heq : handleRemoveDoctor p dayIndex did = p := by
          unfold handleRemoveDoctor
          rw [hl]
        rw [heq]
        exact ⟨hc, hr⟩
      · cases o with
        | none =>
            have heq : handleRemoveDoctor p dayIndex did = p := by
              unfold handleRemoveDoctor
              rw [hl]
            rw [heq]
            exact ⟨hc, hr⟩
        | some d =>
            have heq : handleRemoveDoctor p dayIndex did = setDay p dayIndex (some { regionId := d.regionId, doctorIds := d.doctorIds.filter (fun x => x != did) }) := by
              unfold handleRemoveDoctor
              rw [hl]
            rw [heq]
            constructor
            · apply CrossOK_setDay _ _ _ hc
              intro x hx
              left
              rw [idsAt_of_lookup hl]
              exact List.mem_of_mem_filter hx
            · apply RegionOK_setDay _ _ _ _ hr
              intro d0 hd0 did2 hdid2
              obtain rfl := Option.some.inj hd0
              exact hr dayIndex d hl did2 (List.mem_of_mem_filter hdid2)

/-- Sequences of region-safe mutations preserve both invariants. -/
theorem applyEvents_preserves (allDoctors : List Doctor) (es : List PlanEvent) :
    ∀ p : PlanData, CrossOK p → RegionOK allDoctors p → safeSeq allDoctors p es = true →
      CrossOK (applyEvents allDoctors p es) ∧ RegionOK allDoctors (applyEvents allDoctors p es) := by
  induction es with
  | nil =>
      intro p hc hr _
      exact ⟨hc, hr⟩
  | cons e es ih =>
      intro p hc hr hs
      have hs2 : (eventSafe allDoctors p e && safeSeq allDoctors (applyEvent allDoctors p e) es)
          = true := hs
      rw [Bool.and_eq_true] at hs2
      have h1 := applyEvent_preserves allDoctors p e hc hr hs2.1
      exact ih (applyEvent allDoctors p e) h1.1 h1.2 hs2.2

/-- C1 (amended): for every sequence of plan-editing mutations
(`handleRegionChange`, `handleAddDoctor`, `handleRemoveDoctor`) applied from
any valid starting plan, in which every add-doctor mutation targeting a day
that already has an assignment only adds a doctor whose record's home region
matches that day's region (as the editor's region-filtered selector
enforces), the resulting plan satisfies both plan invariants: no doctor id
appears in more than one day's `doctorIds`, and every doctor id listed under
a day belongs to the region assigned to that same day. -/
theorem planEditor_invariants_preserved (allDoctors : List Doctor) (es : List PlanEvent)
    (p : PlanData) (hvalid : planValid allDoctors p = true)
    (hsafe : safeSeq allDoctors p es = true) :
    planValid allDoctors (applyEvents allDoctors p es) = true := by
  unfold planValid at hvalid ⊢
  rw [Bool.and_eq_true] at hvalid ⊢
  have h := applyEvents_preserves allDoctors es p ((crossDayUnique_iff p).mp hvalid.1)
    ((regionOk_iff allDoctors p).mp hvalid.2) hsafe
  exact ⟨(crossDayUnique_iff _).mpr h.1, (regionOk_iff _ _).mpr h.2⟩

/-- C1 counterexample: from a valid plan whose Saturday-free day 0 carries
region 1 and no doctors, a single `handleAddDoctor` of doctor 7 — whose
record places it in region 2 — leaves a plan violating the region-membership
invariant, so the claim fails without the region-safety proviso. -/
theorem planEditor_invariants_counterexample :
    planValid [{ id := 7, name := "d", regionId := 2, repId := "r", specialization := "s" }]
        [(0, some { regionId := 1, doctorIds := [] })] = true
    ∧ planValid [{ id := 7, name := "d", regionId := 2, repId := "r", specialization := "s" }]
        (applyEvents [{ id := 7, name := "d", regionId := 2, repId := "r", specialization := "s" }]
          [(0, some { regionId := 1, doctorIds := [] })]
          [PlanEvent.addDoctor 0 (some 7)]) = false := by
  decide

/-- C1 witness: a concrete valid plan and region-safe mutation sequence. -/
theorem planEditor_invariants_preserved_witness :
    planValid [{ id := 7, name := "d", regionId := 1, repId := "r", specialization := "s" }]
        (applyEvents [{ id := 7, name := "d", regionId := 1, repId := "r", specialization := "s" }]
          [(0, some { regionId := 1, doctorIds := [] })]
          [PlanEvent.addDoctor 0 (some 7), PlanEvent.regionChange 1 (some 2),
           PlanEvent.removeDoctor 0 7]) = true :=
  planEditor_invariants_preserved _ _ _ (by decide) (by decide)

/-- C6: once doctor `X` is assigned to `dayA`, adding `X` to any other day
`dayB` leaves the whole plan unchanged. -/
theorem addDoctor_cross_day_noop (allDoctors : List Doctor) (p : PlanData)
    (dayA dayB : Nat) (X : Int) (d : DayPlanDetails)
    (hA : lookupDay p dayA = some (some d)) (hX : X ∈ d.doctorIds) (hne : dayB ≠ dayA) :
    handleAddDoctor allDoctors p dayB (some X) = p := by
  have hass : X ∈ assignedDoctorIds p := by
    apply mem_assigned_of_mem_idsAt (i := dayA)
    rw [idsAt_of_lookup hA]
    exact hX
  exact handleAddDoctor_of_assigned allDoctors p dayB X (List.elem_eq_true_of_mem hass)

/-- C6 witness: doctor 5 lives on day 6; adding it to day 0 changes
nothing. -/
theorem addDoctor_cross_day_noop_witness :
    handleAddDoctor [{ id := 5, name := "d", regionId := 1, repId := "r", specialization := "s" }]
        [(6, some { regionId := 1, doctorIds := [5] })] 0 (some 5)
      = [(6, some { regionId := 1, doctorIds := [5] })] :=
  addDoctor_cross_day_noop _ _ 6 0 5 { regionId := 1, doctorIds := [5] }
    (by decide) (by decide) (by decide)

/-- C7: changing a day to a different region empties its doctor list,
re-selecting the same region preserves it, and clearing the region stores the
explicit `null` marker. -/
theorem regionChange_semantics (p : PlanData) (dayIndex : Nat) (d : DayPlanDetails) (r2 : Int)
    (h : lookupDay p dayIndex = some (some d)) :
    (r2 ≠ d.regionId →
      lookupDay (handleRegionChange p dayIndex (some r2)) dayIndex
        = some (some { regionId := r2, doctorIds := [] }))
    ∧ lookupDay (handleRegionChange p dayIndex (some d.regionId)) dayIndex
        = some (some { regionId := d.regionId, doctorIds := d.doctorIds })
    ∧ lookupDay (handleRegionChange p dayIndex none) dayIndex = some none := by
  refine ⟨?_, ?_, ?_⟩
  · intro hne
    rw [handleRegionChange_some_eq, lookupDay_setDay, if_pos rfl,
        regionChangeIds_diff h (beq_eq_false_iff_ne.mpr (fun hh => hne hh.symm))]
  · rw [handleRegionChange_some_eq, lookupDay_setDay, if_pos rfl,
        regionChangeIds_same h (beq_self_eq_true _)]
  · show lookupDay (setDay p dayIndex none) dayIndex = some none
    rw [lookupDay_setDay, if_pos rfl]

/-- C7 witness: day 0 carries region 1 with doctors `[8, 9]`. -/
theorem regionChange_semantics_witness :
    lookupDay (handleRegionChange [(0, some { regionId := 1, doctorIds := [8, 9] })] 0 (some 2)) 0
        = some (some { regionId := 2, doctorIds := [] })
    ∧ lookupDay (handleRegionChange [(0, some { regionId := 1, doctorIds := [8, 9] })] 0 (some 1)) 0
        = some (some { regionId := 1, doctorIds := [8, 9] })
    ∧ lookupDay (handleRegionChange [(0, some { regionId := 1, doctorIds := [8, 9] })] 0 none) 0
        = some none := by
  have h := regionChange_semantics [(0, some { regionId := 1, doctorIds := [8, 9] })] 0
    { regionId := 1, doctorIds := [8, 9] } 2 (by decide)
  exact ⟨h.1 (by decide), h.2.1, h.2.2⟩

/-- `handleRemoveDoctor` on a day with an assignment, as a keyed write. -/
theorem handleRemoveDoctor_eq_of_lookup {p : PlanData} {i : Nat} {did : Int}
    {d : DayPlanDetails} (hl : lookupDay p i = some (some d)) :
    handleRemoveDoctor p i did = setDay p i (some { regionId := d.regionId, doctorIds := d.doctorIds.filter (fun x => x != did) }) := by
  unfold handleRemoveDoctor
  rw [hl]

/-- `handleRemoveDoctor` on a day without an assignment is a no-op. -/
theorem handleRemoveDoctor_noop {p : PlanData} {i : Nat} {did : Int}
    (hl : lookupDay p i = some none ∨ lookupDay p i = none) :
    handleRemoveDoctor p i did = p := by
  unfold handleRemoveDoctor
  rcases hl with hl | hl <;> rw [hl]

/-- C10: `handleRemoveDoctor` removes the doctor from the day if present and
is a no-op when absent; the day's region, the order of the remaining ids, and
every other day are untouched. -/
theorem removeDoctor_frame (p : PlanData) (i : Nat) (did : Int) :
    (∀ j, j ≠ i → lookupDay (handleRemoveDoctor p i did) j = lookupDay p j)
    ∧ (∀ d, lookupDay p i = some (some d) →
        lookupDay (handleRemoveDoctor p i did) i
          = some (some { regionId := d.regionId, doctorIds := d.doctorIds.filter (fun x => x != did) }))
    ∧ (∀ d, lookupDay p i = some (some d) → did ∉ d.doctorIds →
        lookupDay (handleRemoveDoctor p i did) i = lookupDay p i)
    ∧ ((lookupDay p i = some none ∨ lookupDay p i = none) → handleRemoveDoctor p i did = p) := by
  refine ⟨?_, ?_, ?_, ?_⟩
  · intro j hj
    rcases hl : lookupDay p i with _ | o
    · rw [handleRemoveDoctor_noop (Or.inr hl)]
    · cases o with
      | none => rw [handleRemoveDoctor_noop (Or.inl hl)]
      | some d => rw [handleRemoveDoctor_eq_of_lookup hl, lookupDay_setDay, if_neg hj]
  · intro d hl
    rw [handleRemoveDoctor_eq_of_lookup hl, lookupDay_setDay, if_pos rfl]
  · intro d hl hnot
    rw [handleRemoveDoctor_eq_of_lookup hl, lookupDay_setDay, if_pos rfl, hl]
    have hfix : d.doctorIds.filter (fun x => x != did) = d.doctorIds :=
      List.filter_eq_self.mpr (fun x hx => bne_iff_ne.mpr (fun hxx => hnot (hxx ▸ hx)))
    rw [hfix]
  · intro hl
    exact handleRemoveDoctor_noop hl

/-- C10 witness: removing doctor 7 from day 0 of a two-day plan, with the
other day untouched; removing an absent doctor and removing from an
explicitly null day are no-ops. -/
theorem removeDoctor_frame_witness :
    lookupDay (handleRemoveDoctor
        [(0, some { regionId := 1, doctorIds := [5, 7] }),
         (2, some { regionId := 3, doctorIds := [9] })] 0 7) 2
      = lookupDay
        [(0, some { regionId := 1, doctorIds := [5, 7] }),
         (2, some { regionId := 3, doctorIds := [9] })] 2
    ∧ lookupDay (handleRemoveDoctor
        [(0, some { regionId := 1, doctorIds := [5, 7] }),
         (2, some { regionId := 3, doctorIds := [9] })] 0 7) 0
      = some (some { regionId := 1, doctorIds := [5] })
    ∧ lookupDay (handleRemoveDoctor [(0, some { regionId := 1, doctorIds := [5, 7] })] 0 4) 0
      = lookupDay [(0, some { regionId := 1, doctorIds := [5, 7] })] 0
    ∧ handleRemoveDoctor [(3, (none : Option DayPlanDetails))] 3 7
      = [(3, (none : Option DayPlanDetails))] := by
  refine ⟨(removeDoctor_frame _ 0 7).1 2 (by decide), ?_,
    (removeDoctor_frame _ 0 4).2.2.1 { regionId := 1, doctorIds := [5, 7] }
      (by decide) (by decide),
    (removeDoctor_frame _ 3 7).2.2.2 (Or.inl (by decide))⟩
  have h := (removeDoctor_frame
      [(0, some { regionId := 1, doctorIds := [5, 7] }),
       (2, some { regionId := 3, doctorIds := [9] })] 0 7).2.1
    { regionId := 1, doctorIds := [5, 7] } (by decide)
  rw [h]
  decide

/-- C3: the planning window is active exactly on Thursday/Friday; while
active the resolved week start is the next Saturday strictly after today,
otherwise the most recent Saturday on or before today — in particular a
Saturday outside planning mode resolves to itself. -/
theorem planning_window_week_start (n : Int) :
    (isPlanningTime n = true ↔ (jsGetDay n = 4 ∨ jsGetDay n = 5))
    ∧ (isPlanningTime n = true →
        n < planStartDate n ∧ planStartDate n ≤ n + 7 ∧ jsGetDay (planStartDate n) = 6)
    ∧ (isPlanningTime n = false →
        planStartDate n ≤ n ∧ n - 7 < planStartDate n ∧ jsGetDay (planStartDate n) = 6)
    ∧ (isPlanningTime n = false → jsGetDay n = 6 → planStartDate n = n) := by
  have hval : isPlanningTime n = true ↔ ((n + 4) % 7 = 4 ∨ (n + 4) % 7 = 5) := by
    unfold isPlanningTime jsGetDay
    rw [Bool.or_eq_true]
    constructor
    · rintro (h | h)
      · exact Or.inl (beq_iff_eq.mp h)
      · exact Or.inr (beq_iff_eq.mp h)
    · rintro (h | h)
      · exact Or.inl (beq_iff_eq.mpr h)
      · exact Or.inr (beq_iff_eq.mpr h)
  cases hb : isPlanningTime n with
  | false =>
      have hnot : ¬((n + 4) % 7 = 4 ∨ (n + 4) % 7 = 5) := fun hh => by
        have := hval.mpr hh
        rw [this] at hb
        exact Bool.noConfusion hb
      push_neg at hnot
      have hps : planStartDate n = n - ((jsGetDay n + 1) % 7) := by
        unfold planStartDate
        rw [hb]
        simp
      refine ⟨⟨fun hh => Bool.noConfusion hh, ?_⟩, fun hh => Bool.noConfusion hh, ?_, ?_⟩
      · intro hh
        exact absurd hh (by
          unfold jsGetDay
          intro hc
          rcases hc with hc | hc
          · exact hnot.1 hc
          · exact hnot.2 hc)
      · intro _
        rw [hps]
        unfold jsGetDay
        refine ⟨by omega, by omega, by omega⟩
      · intro _ h6
        rw [hps]
        unfold jsGetDay at h6 ⊢
        omega
  | true =>
      have hyes := hval.mp hb
      rcases hyes with h4 | h5
      · have hps : planStartDate n = n + 2 := by
          unfold planStartDate isPlanningTime jsGetDay
          rw [h4]
          norm_num
        refine ⟨⟨fun _ => Or.inl h4, fun _ => rfl⟩, ?_, ?_, ?_⟩
        · intro _
          rw [hps]
          unfold jsGetDay
          refine ⟨by omega, by omega, by omega⟩
        · intro hh
          exact Bool.noConfusion hh
        · intro hh
          exact Bool.noConfusion hh
      · have hps : planStartDate n = n + 1 := by
          unfold planStartDate isPlanningTime jsGetDay
          rw [h5]
          norm_num
        refine ⟨⟨fun _ => Or.inr h5, fun _ => rfl⟩, ?_, ?_, ?_⟩
        · intro _
          rw [hps]
          unfold jsGetDay
          refine ⟨by omega, by omega, by omega⟩
        · intro hh
          exact Bool.noConfusion hh
        · intro hh
          exact Bool.noConfusion hh

/-- C3 witness: day 0 (a Thursday) is in the planning window and resolves to
day 2, the Saturday two days later; day 2 (a Saturday) is outside the window
and resolves to itself. -/
theorem planning_window_week_start_witness :
    ((0 : Int) < planStartDate 0 ∧ planStartDate 0 ≤ 0 + 7 ∧ jsGetDay (planStartDate 0) = 6)
    ∧ (planStartDate 2 ≤ 2 ∧ (2 : Int) - 7 < planStartDate 2 ∧ jsGetDay (planStartDate 2) = 6)
    ∧ planStartDate 2 = 2 :=
  ⟨(planning_window_week_start 0).2.1 (by decide),
   (planning_window_week_start 2).2.2.1 (by decide),
   (planning_window_week_start 2).2.2.2 (by decide) (by decide)⟩

/-- C4: the weekly-plan action opens the editor iff the plan is missing, not
approved, or the planning window is active; an approved plan outside the
window opens the read-only weekly view. -/
theorem plan_editability (wp : WeeklyPlan) (n : Int) :
    (handleWeeklyPlanClick (some wp) (isPlanningTime n) = RepView.plan ↔
      (wp.status ≠ PlanStatus.approved ∨ isPlanningTime n = true))
    ∧ (wp.status = PlanStatus.approved → isPlanningTime n = false →
        handleWeeklyPlanClick (some wp) (isPlanningTime n) = RepView.weekly)
    ∧ handleWeeklyPlanClick none (isPlanningTime n) = RepView.plan := by
  refine ⟨?_, ?_, ?_⟩ <;>
    cases hb : isPlanningTime n <;> cases hst : wp.status <;>
      simp [handleWeeklyPlanClick, canEditPlan, hb, hst]

/-- C4 witness: an approved plan on day 2 (Saturday, outside the planning
window) opens the read-only view. -/
theorem plan_editability_witness :
    handleWeeklyPlanClick (some { plan := [], status := PlanStatus.approved })
        (isPlanningTime 2) = RepView.weekly :=
  (plan_editability { plan := [], status := PlanStatus.approved } 2).2.1 rfl (by decide)

/-- The clean-up loop of `handleSave`, fully unrolled. -/
theorem cleanedPlanOf_eq (p : PlanData) :
    cleanedPlanOf p =
      [(6, cleanedDay p 6), (0, cleanedDay p 0), (1, cleanedDay p 1), (2, cleanedDay p 2),
       (3, cleanedDay p 3), (4, cleanedDay p 4), (5, cleanedDay p 5)] := rfl

/-- The store returned by `updateRepPlan`, with the locals unfolded. -/
theorem updateRepPlan_fst (store : List (String × WeeklyPlan)) (repId : String)
    (pd : PlanData) :
    (updateRepPlan store repId pd).1 =
      (if store.any (fun e => e.1 == repId) = true then
        store.map (fun e =>
          if e.1 == repId then (repId, { plan := pd, status := PlanStatus.pending }) else e)
       else store ++ [(repId, { plan := pd, status := PlanStatus.pending })]) := rfl

/-- Looking up the upserted key always finds the fresh record. -/
theorem find?_upsert_self {α β : Type} [BEq α] [LawfulBEq α] (l : List (α × β)) (k : α)
    (v : β) :
    ((if l.any (fun e => e.1 == k) = true then
        l.map (fun e => if e.1 == k then (k, v) else e)
      else l ++ [(k, v)]).find? (fun e => e.1 == k)) = some (k, v) := by
  by_cases hany : (l.any (fun e => e.1 == k)) = true
  · rw [if_pos hany]
    have h := find?_mapAssoc_self l k (fun _ => v)
    simp only [] at h
    rw [h]
    rcases hf : l.find? (fun e => e.1 == k) with _ | e
    · exfalso
      rw [List.find?_eq_none] at hf
      rcases List.any_eq_true.mp hany with ⟨e, he, hbe⟩
      exact hf e he hbe
    · rw [hf]
      rfl
  · rw [if_neg hany, find?_append_one]
    have hf : l.find? (fun e => e.1 == k) = none := by
      rw [List.find?_eq_none]
      intro x hx hb
      exact hany (List.any_eq_true.mpr ⟨x, hx, hb⟩)
    rw [hf]
    show (if ((k, v).1 == k) = true then some (k, v) else none) = some (k, v)
    rw [if_pos (beq_self_eq_true k)]

/-- Reading back the plan just stored by `updateRepPlan`. -/
theorem getRepPlan_updateRepPlan (store : List (String × WeeklyPlan)) (repId : String)
    (pd : PlanData) :
    getRepPlan (updateRepPlan store repId pd).1 repId
      = { plan := pd, status := PlanStatus.pending } := by
  unfold getRepPlan
  rw [updateRepPlan_fst, find?_upsert_self]

/-- C5: the snapshot saved by `handleSave` has exactly the seven configured
weekday keys, every unassigned day stored as an explicit `null`, and
`updateRepPlan` stores it with status forced to `'pending'` no matter what
the store held before. -/
theorem handleSave_normalizes_and_forces_pending (p : PlanData)
    (store : List (String × WeeklyPlan)) (repId : String) :
    planKeys (cleanedPlanOf p) = WORK_WEEK_DAYS
    ∧ (∀ i ∈ WORK_WEEK_DAYS, lookupDay (cleanedPlanOf p) i = some (cleanedDay p i))
    ∧ (∀ i ∈ WORK_WEEK_DAYS, (lookupDay p i = none ∨ lookupDay p i = some none) →
        lookupDay (cleanedPlanOf p) i = some none)
    ∧ (updateRepPlan store repId (cleanedPlanOf p)).2
        = { plan := cleanedPlanOf p, status := PlanStatus.pending }
    ∧ getRepPlan (updateRepPlan store repId (cleanedPlanOf p)).1 repId
        = { plan := cleanedPlanOf p, status := PlanStatus.pending } := by
  have hlook : ∀ i ∈ WORK_WEEK_DAYS, lookupDay (cleanedPlanOf p) i = some (cleanedDay p i) := by
    intro i hi
    fin_cases hi <;> rw [cleanedPlanOf_eq] <;> rfl
  refine ⟨?_, hlook, ?_, rfl, getRepPlan_updateRepPlan store repId (cleanedPlanOf p)⟩
  · rw [cleanedPlanOf_eq]
    rfl
  · intro i hi hnull
    have hcd : cleanedDay p i = none := by
      unfold cleanedDay
      rcases hnull with h | h <;> rw [h]
    rw [hlook i hi, hcd]

/-- C5 witness: a plan with one real day, one explicit null and a stray key 9
normalizes to the seven weekday keys with nulls, and the stored status is
pending even though the store held an approved plan. -/
theorem handleSave_normalizes_witness :
    planKeys (cleanedPlanOf [(6, some { regionId := 1, doctorIds := [4] }),
        (0, (none : Option DayPlanDetails)), (9, some { regionId := 2, doctorIds := [8] })])
      = WORK_WEEK_DAYS
    ∧ lookupDay (cleanedPlanOf [(6, some { regionId := 1, doctorIds := [4] }),
        (0, (none : Option DayPlanDetails)), (9, some { regionId := 2, doctorIds := [8] })]) 3
      = some none
    ∧ getRepPlan (updateRepPlan
        [("rep1", { plan := [], status := PlanStatus.approved })] "rep1"
        (cleanedPlanOf [(6, some { regionId := 1, doctorIds := [4] }),
          (0, (none : Option DayPlanDetails)), (9, some { regionId := 2, doctorIds := [8] })])).1
        "rep1"
      = { plan := cleanedPlanOf [(6, some { regionId := 1, doctorIds := [4] }),
            (0, (none : Option DayPlanDetails)), (9, some { regionId := 2, doctorIds := [8] })],
          status := PlanStatus.pending } := by
  refine ⟨?_, ?_, ?_⟩
  · exact (handleSave_normalizes_and_forces_pending _ [] "rep1").1
  · exact (handleSave_normalizes_and_forces_pending _ [] "rep1").2.2.1 3 (by decide)
      (Or.inl (by decide))
  · exact (handleSave_normalizes_and_forces_pending _
      [("rep1", { plan := [], status := PlanStatus.approved })] "rep1").2.2.2.2

/-- C9: fetching the plan of a representative with no stored record yields
the empty draft, not an error. -/
theorem getRepPlan_default (store : List (String × WeeklyPlan)) (repId : String)
    (h : store.find? (fun e => e.1 == repId) = none) :
    getRepPlan store repId = { plan := [], status := PlanStatus.draft } := by
  unfold getRepPlan
  rw [h]

/-- C9 witness: the empty store. -/
theorem getRepPlan_default_witness :
    getRepPlan [] "rep1" = { plan := [], status := PlanStatus.draft } :=
  getRepPlan_default [] "rep1" rfl

/-- C2 counterexample: a representative invoking the approve handler on a
pending plan triggers the persistence call and flips the status with no
permission-denied — the handler checks neither role nor prior status. -/
theorem review_handler_unguarded_counterexample :
    handleReviewPlan
        (some { id := "u1", name := "rep user", username := "rep", role := UserRole.Rep })
        [("rep1", { plan := [], status := PlanStatus.pending })] "rep1"
        ReviewDecision.approved
      = { allPlans := [("rep1", { plan := [], status := PlanStatus.approved })],
          persistCalls := [PersistCall.reviewRepPlan "rep1" PlanStatus.approved],
          permissionDenied := false } := by
  decide

/-- C2 (amended): only the revoke handler enforces a role precondition — a
revoke without a manager (or without a user) leaves the plans unchanged,
issues no persistence call and surfaces permission-denied; the approve/reject
handler persists unconditionally and never raises permission-denied, the
unlisted combinations being excluded only by interface gating. -/
theorem review_handlers_guard_amended (u : User) (plans : List (String × WeeklyPlan))
    (repId : String) (dec : ReviewDecision) (hu : u.role ≠ UserRole.Manager) :
    handleRevokeApproval (some u) plans repId
        = { allPlans := plans, persistCalls := [], permissionDenied := true }
    ∧ handleRevokeApproval none plans repId
        = { allPlans := plans, persistCalls := [], permissionDenied := true }
    ∧ (handleReviewPlan (some u) plans repId dec).persistCalls
        = [PersistCall.reviewRepPlan repId dec.toStatus]
    ∧ (handleReviewPlan (some u) plans repId dec).permissionDenied = false := by
  refine ⟨?_, rfl, rfl, rfl⟩
  have hstep : handleRevokeApproval (some u) plans repId
      = (if (u.role != UserRole.Manager) = true then
          { allPlans := plans, persistCalls := [], permissionDenied := true }
         else
          { allPlans := setStatusIn plans repId PlanStatus.draft
            persistCalls := [PersistCall.revokePlanApproval repId]
            permissionDenied := false }) := rfl
  rw [hstep, if_pos (bne_iff_ne.mpr hu)]

/-- C2 witness: a supervisor attempting revoke is refused before any call. -/
theorem review_handlers_guard_witness :
    handleRevokeApproval
        (some { id := "u2", name := "sup", username := "sup", role := UserRole.Supervisor })
        [("rep1", { plan := [], status := PlanStatus.approved })] "rep1"
      = { allPlans := [("rep1", { plan := [], status := PlanStatus.approved })],
          persistCalls := [], permissionDenied := true }
    ∧ (handleReviewPlan
        (some { id := "u2", name := "sup", username := "sup", role := UserRole.Supervisor })
        [("rep1", { plan := [], status := PlanStatus.pending })] "rep1"
        ReviewDecision.rejected).persistCalls
      = [PersistCall.reviewRepPlan "rep1" PlanStatus.rejected] := by
  have h := review_handlers_guard_amended
    { id := "u2", name := "sup", username := "sup", role := UserRole.Supervisor }
    [("rep1", { plan := [], status := PlanStatus.approved })] "rep1"
    ReviewDecision.rejected (by decide)
  have h2 := review_handlers_guard_amended
    { id := "u2", name := "sup", username := "sup", role := UserRole.Supervisor }
    [("rep1", { plan := [], status := PlanStatus.pending })] "rep1"
    ReviewDecision.rejected (by decide)
  exact ⟨h.1, h2.2.2.1⟩

/-- `visitCounts[key] || 0` on the JavaScript record object. -/
def lookupCount (counts : List (String × Nat)) (key : String) : Nat :=
  match counts.find? (fun e => e.1 == key) with
  | some e => e.2
  | none => 0

/-- A Boolean that is not `true` is `false`. -/
theorem bool_eq_false_of_ne_true {b : Bool} (h : ¬b = true) : b = false := by
  cases b
  · rfl
  · exact absurd rfl h

/-- Reading the record after a bump: the bumped key gains one, the rest are
untouched. -/
theorem bumpCount_lookup (acc : List (String × Nat)) (key name : String) :
    lookupCount (bumpCount acc key) name
      = if name = key then lookupCount acc name + 1 else lookupCount acc name := by
  by_cases hany : (acc.any (fun e => e.1 == key)) = true
  · have hstep : bumpCount acc key
        = acc.map (fun e => if e.1 == key then (key, e.2 + 1) else e) := by
      unfold bumpCount
      rw [if_pos hany]
    rw [hstep]
    by_cases hnk : name = key
    · subst hnk
      unfold lookupCount
      have h := find?_mapAssoc_self acc name (fun x => x + 1)
      simp only [] at h
      rw [h, if_pos rfl]
      rcases hf : acc.find? (fun e => e.1 == name) with _ | e
      · exfalso
        rw [List.find?_eq_none] at hf
        rcases List.any_eq_true.mp hany with ⟨e, he, hbe⟩
        exact hf e he hbe
      · rw [hf]
        rfl
    · unfold lookupCount
      have h := find?_mapAssoc_ne acc key name (fun x => x + 1) hnk
      simp only [] at h
      rw [h, if_neg hnk]
  · have hstep : bumpCount acc key = acc ++ [(key, 1)] := by
      unfold bumpCount
      rw [if_neg hany]
    have hf : acc.find? (fun e => e.1 == key) = none := by
      rw [List.find?_eq_none]
      intro x hx hb
      exact hany (List.any_eq_true.mpr ⟨x, hx, hb⟩)
    rw [hstep]
    unfold lookupCount
    rw [find?_append_one]
    by_cases hnk : name = key
    · subst hnk
      rw [hf, if_pos rfl]
      show (match (if (((name, 1) : String × Nat).1 == name) = true
                   then some ((name, 1) : String × Nat) else none) with
            | some e => e.2
            | none => 0) = 0 + 1
      rw [if_pos (beq_self_eq_true name)]
    · rw [if_neg hnk]
      rcases hg : acc.find? (fun e => e.1 == name) with _ | e
      · rw [hg]
        show (match (if (((key, 1) : String × Nat).1 == name) = true
                     then some ((key, 1) : String × Nat) else none) with
              | some e => e.2
              | none => 0) = 0
        rw [if_neg (by
          intro hh
          exact hnk (beq_iff_eq.mp hh).symm)]
      · rw [hg]

/-- A bump on a present key keeps the key list. -/
theorem bumpCount_keys_any (acc : List (String × Nat)) (key : String)
    (h : acc.any (fun e => e.1 == key) = true) :
    (bumpCount acc key).map Prod.fst = acc.map Prod.fst := by
  unfold bumpCount
  rw [if_pos h, List.map_map]
  apply List.map_congr_left
  intro e _
  by_cases hb : (e.1 == key) = true
  · simp only [Function.comp, if_pos hb]
    exact (beq_iff_eq.mp hb).symm
  · simp only [Function.comp, if_neg hb]

/-- A bump on a fresh key appends it to the key list. -/
theorem bumpCount_keys_new (acc : List (String × Nat)) (key : String)
    (h : ¬acc.any (fun e => e.1 == key) = true) :
    (bumpCount acc key).map Prod.fst = acc.map Prod.fst ++ [key] := by
  unfold bumpCount
  rw [if_neg h, List.map_append]
  rfl

/-- Bumps keep the key list duplicate-free. -/
theorem bumpCount_keys_nodup (acc : List (String × Nat)) (key : String)
    (h : (acc.map Prod.fst).Nodup) : ((bumpCount acc key).map Prod.fst).Nodup := by
  by_cases hany : (acc.any (fun e => e.1 == key)) = true
  · rw [bumpCount_keys_any acc key hany]
    exact h
  · rw [bumpCount_keys_new acc key hany]
    have hnk : key ∉ acc.map Prod.fst := fun hm => hany ((any_key_eq_true_iff acc key).mpr hm)
    rw [List.nodup_append]
    refine ⟨h, List.nodup_singleton key, ?_⟩
    intro a ha hb
    rw [List.mem_singleton] at hb
    subst hb
    exact hnk ha

/-- Key membership after a bump. -/
theorem bumpCount_mem_keys (acc : List (String × Nat)) (key name : String) :
    name ∈ (bumpCount acc key).map Prod.fst ↔ name ∈ acc.map Prod.fst ∨ name = key := by
  by_cases hany : (acc.any (fun e => e.1 == key)) = true
  · rw [bumpCount_keys_any acc key hany]
    constructor
    · exact Or.inl
    · rintro (h | rfl)
      · exact h
      · exact (any_key_eq_true_iff acc name).mp hany
  · rw [bumpCount_keys_new acc key hany, List.mem_append, List.mem_singleton]

/-- One step of the counting loop. -/
theorem visitCountsAux_cons (s t : Int) (acc : List (String × Nat)) (v : VisitReport)
    (vs : List VisitReport) :
    visitCountsAux s t acc (v :: vs)
      = visitCountsAux s t
          (if inMonthDoctorVisit s t v = true then bumpCount acc v.targetName else acc) vs := rfl

/-- The record built by the counting loop holds, for every name, the number
of in-window doctor visits to that name, on top of what the accumulator
already held. -/
theorem visitCountsAux_lookup (s t : Int) :
    ∀ (visits : List VisitReport) (acc : List (String × Nat)) (name : String),
      lookupCount (visitCountsAux s t acc visits) name
        = lookupCount acc name
          + (visits.filter (inMonthDoctorVisit s t)).countP (fun v => v.targetName == name) := by
  intro visits
  induction visits with
  | nil =>
      intro acc name
      simp [visitCountsAux]
  | cons v vs ih =>
      intro acc name
      rw [visitCountsAux_cons]
      by_cases hin : inMonthDoctorVisit s t v = true
      · rw [if_pos hin, ih, bumpCount_lookup, List.filter_cons_of_pos hin, List.countP_cons]
        by_cases hnv : name = v.targetName
        · rw [if_pos hnv]
          have hb : (v.targetName == name) = true := beq_iff_eq.mpr hnv.symm
          rw [hb, if_pos rfl]
          omega
        · rw [if_neg hnv]
          have hb : (v.targetName == name) = false := by
            rw [beq_eq_false_iff_ne]
            exact fun hh => hnv hh.symm
          rw [hb, if_neg (by simp)]
          omega
      · rw [if_neg hin, ih, List.filter_cons_of_neg hin]

/-- The counting loop keeps record keys duplicate-free. -/
theorem visitCountsAux_keys_nodup (s t : Int) :
    ∀ (visits : List VisitReport) (acc : List (String × Nat)),
      (acc.map Prod.fst).Nodup → ((visitCountsAux s t acc visits).map Prod.fst).Nodup := by
  intro visits
  induction visits with
  | nil =>
      intro acc h
      exact h
  | cons v vs ih =>
      intro acc h
      rw [visitCountsAux_cons]
      by_cases hin : inMonthDoctorVisit s t v = true
      · rw [if_pos hin]
        exact ih _ (bumpCount_keys_nodup acc v.targetName h)
      · rw [if_neg hin]
        exact ih _ h

/-- The record keys are exactly the accumulator keys plus the target names of
the in-window doctor visits. -/
theorem visitCountsAux_mem_keys (s t : Int) :
    ∀ (visits : List VisitReport) (acc : List (String × Nat)) (name : String),
      name ∈ (visitCountsAux s t acc visits).map Prod.fst
        ↔ name ∈ acc.map Prod.fst
          ∨ name ∈ (visits.filter (inMonthDoctorVisit s t)).map VisitReport.targetName := by
  intro visits
  induction visits with
  | nil =>
      intro acc name
      simp [visitCountsAux]
  | cons v vs ih =>
      intro acc name
      rw [visitCountsAux_cons]
      by_cases hin : inMonthDoctorVisit s t v = true
      · rw [if_pos hin, ih, bumpCount_mem_keys, List.filter_cons_of_pos hin, List.map_cons,
          List.mem_cons]
        tauto
      · rw [if_neg hin, ih, List.filter_cons_of_neg hin]

/-- In a record with duplicate-free keys, each entry holds exactly its
looked-up value. -/
theorem lookupCount_entry :
    ∀ {acc : List (String × Nat)}, (acc.map Prod.fst).Nodup →
      ∀ e ∈ acc, lookupCount acc e.1 = e.2 := by
  intro acc
  induction acc with
  | nil =>
      intro _ e he
      cases he
  | cons a acc ih =>
      intro h e he
      rw [List.map_cons, List.nodup_cons] at h
      rcases List.mem_cons.mp he with rfl | hmem
      · unfold lookupCount
        have hfind : List.find? (fun x => x.1 == e.1) (e :: acc) = some e :=
          List.find?_cons_of_pos _ (beq_self_eq_true e.1)
        rw [hfind]
      · have hne : (a.1 == e.1) = false := by
          rw [beq_eq_false_iff_ne]
          intro hq
          exact h.1 (List.mem_map.mpr ⟨e, hmem, hq.symm⟩)
      
        unfold lookupCount
        rw [List.find?_cons_of_neg _ (by rw [hne]; simp)]
        exact ih h.2 e hmem

/-- The bucketing loop counts the record values equal to one, equal to two,
and at least three. -/
theorem bucket_foldl (l : List (String × Nat)) :
    ∀ f : FreqBuckets,
      l.foldl (fun f e => bucketStep f e.2) f
        = { freq1 := f.freq1 + l.countP (fun e => decide (e.2 = 1)),
            freq2 := f.freq2 + l.countP (fun e => decide (e.2 = 2)),
            freq3 := f.freq3 + l.countP (fun e => decide (3 ≤ e.2)) } := by
  induction l with
  | nil =>
      intro f
      simp [List.countP_nil]
  | cons e l ih =>
      intro f
      rw [List.foldl_cons, ih]
      simp only [List.countP_cons, decide_eq_true_eq]
      unfold bucketStep
      split_ifs with h1 h2 h3 <;> simp only [FreqBuckets.mk.injEq] <;>
        refine ⟨by omega, by omega, by omega⟩

/-- Counting record values with property `P` equals counting the distinct
in-window target names whose visit count has property `P`. -/
theorem countP_final_eq (visits : List VisitReport) (s t : Int) (P : Nat → Prop)
    [DecidablePred P] :
    (visitCounts visits s t).countP (fun e => decide (P e.2))
      = ((specNames visits s t).filter (fun nm => P (specOcc visits s t nm))).card := by
  have hnd : ((visitCounts visits s t).map Prod.fst).Nodup := by
    apply visitCountsAux_keys_nodup
    simp
  have hlook : ∀ name, lookupCount (visitCounts visits s t) name = specOcc visits s t name := by
    intro name
    have h := visitCountsAux_lookup s t visits [] name
    have hz : lookupCount [] name = 0 := rfl
    rw [hz, Nat.zero_add] at h
    exact h
  have hmemk : ∀ name, (name ∈ (visitCounts visits s t).map Prod.fst
      ↔ name ∈ (visits.filter (inMonthDoctorVisit s t)).map VisitReport.targetName) := by
    intro name
    have h := visitCountsAux_mem_keys s t visits [] name
    simpa using h
  have hentry : ∀ e ∈ visitCounts visits s t, e.2 = specOcc visits s t e.1 := by
    intro e he
    rw [← hlook e.1]
    exact (lookupCount_entry hnd e he).symm
  calc (visitCounts visits s t).countP (fun e => decide (P e.2))
      = (visitCounts visits s t).countP (fun e => decide (P (specOcc visits s t e.1))) := by
        apply List.countP_congr
        intro e he
        rw [hentry e he]
    _ = ((visitCounts visits s t).map Prod.fst).countP
          (fun nm => decide (P (specOcc visits s t nm))) := by
        rw [List.countP_map]
        rfl
    _ = (((visitCounts visits s t).map Prod.fst).filter
          (fun nm => decide (P (specOcc visits s t nm)))).length :=
        List.countP_eq_length_filter _ _
    _ = (((visitCounts visits s t).map Prod.fst).filter
          (fun nm => decide (P (specOcc visits s t nm)))).toFinset.card :=
        (List.toFinset_card_of_nodup (hnd.filter _)).symm
    _ = (((visitCounts visits s t).map Prod.fst).toFinset.filter
          (fun nm => P (specOcc visits s t nm))).card := by
        rw [List.toFinset_filter]
        apply congrArg Finset.card
        apply Finset.filter_congr
        intro x _
        simp
    _ = ((specNames visits s t).filter (fun nm => P (specOcc visits s t nm))).card := by
        have hfs : ((visitCounts visits s t).map Prod.fst).toFinset = specNames visits s t := by
          apply Finset.ext
          intro a
          rw [List.mem_toFinset]
          unfold specNames specFilteredVisits
          rw [List.mem_toFinset]
          exact hmemk a
        rw [hfs]

/-- C8: the monthly visit-frequency computation counts, among in-window
doctor visits, the distinct target display names visited exactly once,
exactly twice, and three or more times; pharmacy visits and out-of-window
visits contribute nothing, and the 1/2/3-visit example yields
`{freq1 := 1, freq2 := 1, freq3 := 1}`. -/
theorem visitFrequency_matches_spec :
    (∀ (visits : List VisitReport) (s t : Int),
      visitFrequency visits s t
        = { freq1 := specFreqCount visits s t 1,
            freq2 := specFreqCount visits s t 2,
            freq3 := specFreq3Plus visits s t })
    ∧ visitFrequency
        [{ targetName := "A", type := VisitType.DOCTOR_VISIT, date := 10 },
         { targetName := "B", type := VisitType.DOCTOR_VISIT, date := 20 },
         { targetName := "B", type := VisitType.DOCTOR_VISIT, date := 30 },
         { targetName := "C", type := VisitType.DOCTOR_VISIT, date := 40 },
         { targetName := "C", type := VisitType.DOCTOR_VISIT, date := 50 },
         { targetName := "C", type := VisitType.DOCTOR_VISIT, date := 60 },
         { targetName := "P", type := VisitType.PHARMACY_VISIT, date := 10 },
         { targetName := "A", type := VisitType.DOCTOR_VISIT, date := 200 }] 0 100
      = { freq1 := 1, freq2 := 1, freq3 := 1 } := by
  constructor
  · intro visits s t
    unfold visitFrequency
    rw [bucket_foldl]
    simp only [Nat.zero_add, FreqBuckets.mk.injEq]
    refine ⟨?_, ?_, ?_⟩
    · exact countP_final_eq visits s t (fun c => c = 1)
    · exact countP_final_eq visits s t (fun c => c = 2)
    · exact countP_final_eq visits s t (fun c => 3 ≤ c)
  · decide
